import Mathlib

/-!
Formal model of the LolalyticsScraper statistical core
(`lolalytics_scraper/champion.py` and `lolalytics_scraper/roster.py`).

Numbers occurring in the data (match counts, win rates, pick rates) are
modelled as exact rationals; Python/NumPy float values that can be one of
`-inf`, `+inf` or `nan` are modelled by the four-constructor type `PyFloat`.
Python exceptions raised by the code are modelled with `Except PyErr`.
The Elo conversion functions, whose source uses `log10`, are modelled over
the real numbers in a separate section.
-/

namespace Lolalytics

attribute [local semireducible] Rat.inv Rat.mul Rat.add Rat.sub

/-- Exceptions the modelled Python code can raise. -/
inductive PyErr
  | zeroDivisionError
  | indexError
  | attributeError
  | keyError
  | assertionError
deriving DecidableEq, Repr

/-- Model of a Python/NumPy floating point value: an exact rational,
one of the two infinities, or `nan`. -/
inductive PyFloat
  | ninf
  | fin (q : ℚ)
  | pinf
  | nan
deriving DecidableEq, Repr

namespace PyFloat

/-- Float addition: `nan` propagates, opposite infinities give `nan`. -/
def add : PyFloat → PyFloat → PyFloat
  | nan, _ => nan
  | _, nan => nan
  | fin a, fin b => fin (a + b)
  | pinf, ninf => nan
  | ninf, pinf => nan
  | pinf, _ => pinf
  | _, pinf => pinf
  | ninf, _ => ninf
  | _, ninf => ninf

/-- Float negation. -/
def neg : PyFloat → PyFloat
  | nan => nan
  | fin a => fin (-a)
  | pinf => ninf
  | ninf => pinf

/-- Float subtraction. -/
def sub (a b : PyFloat) : PyFloat := a.add b.neg

/-- Float multiplication: `nan` propagates, `0 * inf = nan`. -/
def mul : PyFloat → PyFloat → PyFloat
  | nan, _ => nan
  | _, nan => nan
  | fin a, fin b => fin (a * b)
  | fin a, pinf => if a = 0 then nan else if 0 < a then pinf else ninf
  | pinf, fin a => if a = 0 then nan else if 0 < a then pinf else ninf
  | fin a, ninf => if a = 0 then nan else if 0 < a then ninf else pinf
  | ninf, fin a => if a = 0 then nan else if 0 < a then ninf else pinf
  | pinf, pinf => pinf
  | ninf, ninf => pinf
  | pinf, ninf => ninf
  | ninf, pinf => ninf

/-- NumPy-style float division (never raises: `x/0` is a signed infinity,
`0/0` is `nan`).  Python scalar division, which raises on a zero
denominator, is modelled separately where the source uses it. -/
def div : PyFloat → PyFloat → PyFloat
  | nan, _ => nan
  | _, nan => nan
  | fin a, fin b =>
      if b = 0 then (if a = 0 then nan else if 0 < a then pinf else ninf)
      else fin (a / b)
  | fin _, pinf => fin 0
  | fin _, ninf => fin 0
  | pinf, fin b => if 0 ≤ b then pinf else ninf
  | ninf, fin b => if 0 ≤ b then ninf else pinf
  | _, _ => nan

/-- IEEE strict less-than as a Boolean: any comparison with `nan` is false. -/
def ltb : PyFloat → PyFloat → Bool
  | fin a, fin b => decide (a < b)
  | ninf, fin _ => true
  | ninf, pinf => true
  | fin _, pinf => true
  | _, _ => false

/-- Total order used to model ascending sorting by a float key; `nan`
keys are placed last (Python gives such sorts no meaningful order). -/
def sortLE : PyFloat → PyFloat → Prop
  | _, nan => True
  | nan, _ => False
  | ninf, _ => True
  | _, ninf => False
  | fin a, fin b => a ≤ b
  | _, pinf => True
  | pinf, _ => False

instance : DecidableRel sortLE := fun a b => by
  cases a <;> cases b <;> simp only [sortLE] <;> infer_instance

theorem sortLE_refl (a : PyFloat) : sortLE a a := by
  cases a <;> simp [sortLE]

theorem sortLE_trans {a b c : PyFloat} (h1 : sortLE a b) (h2 : sortLE b c) : sortLE a c := by
  cases a <;> cases b <;> cases c <;> simp_all [sortLE]
  all_goals linarith

theorem sortLE_total (a b : PyFloat) : sortLE a b ∨ sortLE b a := by
  cases a <;> cases b <;> simp [sortLE, le_total]

/-- Membership of a float value in the unit interval (false for `nan`
and the infinities). -/
def memUnit : PyFloat → Prop
  | fin q => 0 ≤ q ∧ q ≤ 1
  | _ => False

instance : DecidablePred memUnit := fun a => by
  cases a <;> simp only [memUnit] <;> infer_instance

end PyFloat

/-- Lane (role) labels used by the data set. -/
inductive Role
  | top
  | jungle
  | middle
  | bottom
  | support
deriving DecidableEq, Repr

/-- Normalized representation of one champion-vs-champion observation,
as built by `Champion._format_lolaytic_data`. -/
structure MatchupRecord where
  «matches» : ℕ
  wins : ℕ
  win_rate : ℚ
deriving DecidableEq, Repr

/-- Raw `[opponent_id, matches, wins, _]` tuple from an unformatted
`enemy_<role>` list; the fourth element is ignored by the source. -/
structure RawEnemyEntry where
  cid : ℕ
  «matches» : ℕ
  wins : ℕ
  extra : ℤ
deriving DecidableEq, Repr

/-- Model of one `Champion` object (one champion+role profile) after
construction, with its formatted matchup mapping stored as an
association list keyed by (enemy role, enemy champion id). -/
structure Champion where
  id : ℕ
  role : Role
  /-- Header sample size `n`. -/
  n : ℕ
  /-- Header win rate `wr`, in percent. -/
  wr : ℚ
  /-- Header pick rate `pr`, in percent. -/
  pr : ℚ
  /-- Data set average win rate `avgWinRate`, in percent. -/
  avgWinRate : ℚ
  /-- Role-assignment rate `nav.lanes[self.role]`, in percent. -/
  laneAssign : ℚ
  /-- Formatted `enemy_<role>` matchup data. -/
  enemies : List (Role × ℕ × MatchupRecord)
deriving DecidableEq, Repr

/-- Model of the `Roster`: the collection of all champion+role profiles. -/
structure Roster where
  champions : List Champion
deriving DecidableEq, Repr

/-- Dictionary lookup `self._lolalytics_data[f"enemy_{role}"].get(id)`. -/
def lookupEnemy (c : Champion) (erole : Role) (eid : ℕ) : Option MatchupRecord :=
  (c.enemies.find? (fun e => decide (e.1 = erole ∧ e.2.1 = eid))).map (fun e => e.2.2)

/-- Champion.pick_rate: `header.pr / 100`. -/
def pick_rate (c : Champion) : ℚ := c.pr / 100

/-- Champion.role_assignment: `nav.lanes[self.role] / 100`. -/
def role_assignment (c : Champion) : ℚ := c.laneAssign / 100

/-- Champion.raw_win_rate: `header.wr / 100`. -/
def raw_win_rate (c : Champion) : ℚ := c.wr / 100

/-- Champion.rank_normalized_win_rate. -/
def rank_normalized_win_rate (c : Champion) : ℚ :=
  raw_win_rate c - (c.avgWinRate / 100 - 1/2)

/-- Champion._get_raw_matchup_win_rate_by_champion: the stored matchup
win rate against `o`, `nan` when the matchup is absent. -/
def raw_matchup_win_rate (c o : Champion) : PyFloat :=
  match lookupEnemy c o.role o.id with
  | some mr => .fin mr.win_rate
  | none => .nan

/-- Champion._get_normalized_matchup_by_champion:
`(A_vs_B + (1 - B_vs_A)) / 2`, with the float arithmetic idealized as
exact rational arithmetic (each CPython operation additionally rounds
its result to binary64; `normalized_matchup_win_rate_fp64` below models
that rounding where it matters). -/
def normalized_matchup_win_rate (c o : Champion) : PyFloat :=
  ((raw_matchup_win_rate c o).add ((PyFloat.fin 1).sub (raw_matchup_win_rate o c))).div
    (.fin 2)

/-- Fueled search for the binary exponent of a rational at least 1:
halve until the value drops below 2, counting the halvings. -/
def log2Up : ℕ → ℚ → ℤ → ℤ
  | 0, _, e => e
  | fuel + 1, q, e => if q < 2 then e else log2Up fuel (q / 2) (e + 1)

/-- Fueled search for the binary exponent of a positive rational below
1: double until the value reaches 1, counting down. -/
def log2Down : ℕ → ℚ → ℤ → ℤ
  | 0, _, e => e
  | fuel + 1, q, e => if 1 ≤ q then e else log2Down fuel (q * 2) (e - 1)

/-- Floor of the base-2 logarithm of a positive rational; the fuel of
1100 covers the whole binary64 exponent range. -/
def log2Floor (q : ℚ) : ℤ :=
  if 1 ≤ q then log2Up 1100 q 0 else log2Down 1100 q 0

/-- Integer power of two as a rational. -/
def pow2Z (e : ℤ) : ℚ :=
  if 0 ≤ e then ((2 : ℚ) ^ e.toNat) else 1 / (2 : ℚ) ^ (-e).toNat

/-- Rounding of a positive rational to the nearest IEEE binary64 double
(53-bit significand, round to nearest, ties to even); faithful on the
binary64 normal range, which covers every value arising below. -/
def roundB64Pos (x : ℚ) : ℚ :=
  let e : ℤ := log2Floor x - 52
  let m : ℚ := x * pow2Z (-e)
  let f : ℤ := m.floor
  let n : ℤ :=
    if m - (f : ℚ) < 1/2 then f
    else if (1 : ℚ)/2 < m - (f : ℚ) then f + 1
    else if f % 2 = 0 then f else f + 1
  (n : ℚ) * pow2Z e

/-- Signed IEEE binary64 rounding of a rational. -/
def roundB64 (q : ℚ) : ℚ :=
  if q = 0 then 0
  else if 0 < q then roundB64Pos q
  else -roundB64Pos (-q)

/-- Float addition as CPython performs it on doubles: the exact sum of
the operands, rounded to binary64 when finite. -/
def PyFloat.addR (a b : PyFloat) : PyFloat :=
  match a.add b with
  | .fin q => .fin (roundB64 q)
  | x => x

/-- Float subtraction on doubles: exact difference rounded to binary64
when finite. -/
def PyFloat.subR (a b : PyFloat) : PyFloat :=
  match a.sub b with
  | .fin q => .fin (roundB64 q)
  | x => x

/-- Float division on doubles: exact quotient rounded to binary64 when
finite. -/
def PyFloat.divR (a b : PyFloat) : PyFloat :=
  match a.div b with
  | .fin q => .fin (roundB64 q)
  | x => x

/-- Champion._get_normalized_matchup_by_champion under the IEEE
binary64 arithmetic CPython actually evaluates
`(A_vs_B + (1 - B_vs_A)) / 2` with: every operation rounds its result
to the nearest double. -/
def normalized_matchup_win_rate_fp64 (c o : Champion) : PyFloat :=
  ((raw_matchup_win_rate c o).addR
    ((PyFloat.fin 1).subR (raw_matchup_win_rate o c))).divR (.fin 2)

/-- Champion.matchup_pick_rates entry for opponent `o`:
`enemy data .get(id).get("matches", nan) / self.n` with Python scalar
division, which raises `ZeroDivisionError` when `self.n == 0`. -/
def matchup_pick_rates (c o : Champion) : Except PyErr PyFloat :=
  let m : PyFloat :=
    match lookupEnemy c o.role o.id with
    | some mr => .fin (mr.matches : ℚ)
    | none => .nan
  if (c.n : ℚ) = 0 then .error .zeroDivisionError
  else .ok (m.div (.fin (c.n : ℚ)))

/-- Roster.get_valid_champions: filter by optional role, minimum pick
rate and minimum role-assignment rate. -/
def get_valid_champions (R : Roster) (role : Option Role)
    (minRoleAssign minPick : ℚ) : List Champion :=
  R.champions.filter
    (fun ch => decide ((role = some ch.role ∨ role = none) ∧
      minPick ≤ pick_rate ch ∧ minRoleAssign ≤ role_assignment ch))

/-- Default `min_champion_role_assignemnt_rate` argument (0.02). -/
def dMinRoleAssign : ℚ := 2 / 100

/-- Default `min_champion_pick_rate` argument (0.005). -/
def dMinPick : ℚ := 5 / 1000

/-- Value extracted from a finite float, `0` for `nan` and infinities;
used to express pandas sums that skip `nan` entries. -/
def PyFloat.toQ : PyFloat → ℚ
  | .fin q => q
  | _ => 0

/-- Ascending-sort key relation used by `blind_expected_win_rate`
(champions ordered by this champion's matchup win rate against them). -/
def blindOppLE (c : Champion) (a b : Champion) : Prop :=
  PyFloat.sortLE (raw_matchup_win_rate c a) (raw_matchup_win_rate c b)

instance (c : Champion) : DecidableRel (blindOppLE c) := fun a b => by
  unfold blindOppLE; infer_instance

instance (c : Champion) : IsRefl Champion (blindOppLE c) :=
  ⟨fun _ => PyFloat.sortLE_refl _⟩

instance (c : Champion) : IsTrans Champion (blindOppLE c) :=
  ⟨fun _ _ _ h1 h2 => PyFloat.sortLE_trans h1 h2⟩

instance (c : Champion) : IsTotal Champion (blindOppLE c) :=
  ⟨fun _ _ => PyFloat.sortLE_total _ _⟩

/-- Eligible-opponent list of `blind_expected_win_rate`, built as the
code does: sort the valid champions of the role by matchup win rate,
then remove self and the optional ignored champion (`list.remove`
removes the first occurrence and is skipped when absent, which is what
`List.erase` does). -/
def blind_opponents (R : Roster) (c : Champion) (ignore : Option Champion) :
    List Champion :=
  let l :=
    (List.insertionSort (blindOppLE c)
      (get_valid_champions R (some c.role) dMinRoleAssign dMinPick)).erase c
  match ignore with
  | none => l
  | some ig => l.erase ig

/-- Iteration step of `blind_expected_win_rate`; the state is the pair
(remaining probability mass, cumulative win rate). -/
def blindStep (c : Champion) (N : ℕ) (s : ℚ × PyFloat) (o : Champion) :
    ℚ × PyFloat :=
  let p := (1 - (1 - pick_rate o) ^ N) * s.1
  (s.1 - p, s.2.add ((PyFloat.fin p).mul (raw_matchup_win_rate c o)))

/-- Champion.blind_expected_win_rate. -/
def blind_expected_win_rate (R : Roster) (c : Champion) (N : ℕ)
    (ignore : Option Champion) : PyFloat :=
  ((blind_opponents R c ignore).foldl (blindStep c N) (1, .fin 0)).2

/-- Eligible-opponent list in the order of operations claim C1 uses:
remove self and the ignored champion from the valid pool first, then
sort ascending by matchup win rate. -/
def blind_opponents_clm (R : Roster) (c : Champion) (ignore : Option Champion) :
    List Champion :=
  let l0 := get_valid_champions R (some c.role) dMinRoleAssign dMinPick
  let l1 := l0.erase c
  let l2 := match ignore with
    | none => l1
    | some ig => l1.erase ig
  List.insertionSort (blindOppLE c) l2

/-- Blind-pick expected win rate as claim C1 words it: the same fold,
run on the remove-first-then-sort opponent list. -/
def blind_expected_win_rate_clm (R : Roster) (c : Champion) (N : ℕ)
    (ignore : Option Champion) : PyFloat :=
  ((blind_opponents_clm R c ignore).foldl (blindStep c N) (1, .fin 0)).2

/-- Remaining probability mass after iterating over a list of opponents,
starting from mass `r`. -/
def blindRemAfter (N : ℕ) (l : List Champion) (r : ℚ) : ℚ :=
  l.foldl (fun r o => r - (1 - (1 - pick_rate o) ^ N) * r) r

/-- Per-opponent pick probabilities generated by the iteration of
`blind_expected_win_rate`, starting from mass `r`. -/
def blindProbs (N : ℕ) : List Champion → ℚ → List ℚ
  | [], _ => []
  | o :: t, r =>
    let p := (1 - (1 - pick_rate o) ^ N) * r
    p :: blindProbs N t (r - p)

/-- Loop step of Champion.best_blind_ban: skip self, otherwise keep the
candidate ban whose resulting expected win rate is strictly larger. -/
def banStep (R : Roster) (c : Champion) (N : ℕ)
    (best : Option Champion × PyFloat) (o : Champion) :
    Option Champion × PyFloat :=
  if o = c then best
  else
    let w := blind_expected_win_rate R c N (some o)
    if best.2.ltb w then (some o, w) else best

/-- Champion.best_blind_ban: exhaustive search over the valid champions
of the role, starting from `(None, -inf)`. -/
def best_blind_ban (R : Roster) (c : Champion) (N : ℕ) :
    Option Champion × PyFloat :=
  (get_valid_champions R (some c.role) dMinRoleAssign dMinPick).foldl
    (banStep R c N) (none, .ninf)

/-- Champion._format_lolaytic_data on one raw enemy tuple: the source
computes `wins / matches` with Python integer operands, so a tuple with
`matches == 0` raises ZeroDivisionError. -/
def formatEnemyEntry (e : RawEnemyEntry) : Except PyErr (ℕ × MatchupRecord) :=
  if e.matches = 0 then .error .zeroDivisionError
  else .ok (e.cid, ⟨e.matches, e.wins, (e.wins : ℚ) / (e.matches : ℚ)⟩)

/-- Champion._format_lolaytic_data on one raw `enemy_<role>` list (the
dict comprehension evaluates entries in order and stops at the first
raised exception). -/
def formatEnemyList (l : List RawEnemyEntry) :
    Except PyErr (List (ℕ × MatchupRecord)) :=
  l.mapM formatEnemyEntry

/-- Accumulation step of a pandas sum: `nan` entries are skipped, other
values are added with float addition. -/
def pandasStep (s x : PyFloat) : PyFloat :=
  match x with
  | .nan => s
  | _ => s.add x

/-- pandas Series.sum with its default skipna=True: `nan` entries are
skipped, the remaining values are added left to right starting from 0. -/
def pandasSum (l : List PyFloat) : PyFloat :=
  l.foldl pandasStep (.fin 0)

/-- Champion.matchup_normalized_win_rate: the two pandas series are
indexed by every champion of the roster (all roles), so the weighted
sum and the pick-rate total both range over the whole roster; `nan`
products are skipped by `.sum()`. -/
def matchup_normalized_win_rate (R : Roster) (c : Champion) : PyFloat :=
  (pandasSum (R.champions.map
      (fun o => (normalized_matchup_win_rate c o).mul (.fin (pick_rate o))))).div
    (pandasSum (R.champions.map (fun o => .fin (pick_rate o))))

/-- Weighted average claim C3 describes: plain pick-rate-weighted sum of
the normalized matchup win rates over the champions of c's role only,
divided by the pick-rate total of those same champions. -/
def matchup_normalized_win_rate_roleOnly (R : Roster) (c : Champion) : PyFloat :=
  let opps := R.champions.filter (fun o => decide (o.role = c.role))
  ((opps.map (fun o => (PyFloat.fin (pick_rate o)).mul
      (normalized_matchup_win_rate c o))).foldl PyFloat.add (.fin 0)).div
    ((opps.map (fun o => PyFloat.fin (pick_rate o))).foldl PyFloat.add (.fin 0))

/-- Single iteration of the matchup loop in Roster.analyze_champion_pool.
With an empty counterpick pool, `opponent_win_rates.index[0]` raises
IndexError.  With a nonempty pool the body always reaches
`opponent_champion.normalized_matchup_N[best_counterpick]` (roster.py
line 213), and the Champion class defines no attribute named
`normalized_matchup_N`, so that access raises AttributeError before any
of the computed values (best counterpick, its win rate) is used; those
dead intermediate computations are therefore not modelled. -/
def analyzeMatchupStep (pool : List Champion) (opponent : Champion) :
    Except PyErr Unit :=
  let counterpick_pool := pool.filter (fun ch => decide (ch ≠ opponent))
  match counterpick_pool with
  | [] => .error .indexError
  | _ :: _ => .error .attributeError

/-- Roster.analyze_champion_pool, modelled up to its first raised
exception: `champion_pool[0]` on an empty pool raises IndexError, a
mixed-role pool fails the `assert`, every iteration of the matchup loop
raises (see `analyzeMatchupStep`), and when the loop body never runs
(no valid opponent) the later `matchups_df["Opponent Pick Rate"]` on
the empty, column-less DataFrame raises KeyError.  The function can
therefore never return normally. -/
def analyze_champion_pool (R : Roster) (pool : List Champion) (_N : ℕ) :
    Except PyErr Unit :=
  match pool with
  | [] => .error .indexError
  | c0 :: _ =>
    if pool.all (fun ch => decide (ch.role = c0.role)) then
      match (get_valid_champions R (some c0.role) dMinRoleAssign dMinPick).foldlM
          (fun _ o => analyzeMatchupStep pool o) () with
      | .error e => .error e
      | .ok _ => .error .keyError
    else .error .assertionError

/-- Extended-real result type for the Elo conversion (the source stores
`-np.Inf` and `np.Inf` at the clamped endpoints). -/
inductive XReal
  | ninf
  | fin (r : ℝ)
  | pinf

/-- win_rate_to_elo: clamp to [0,1], infinities at the endpoints, the
logistic transform `-400 * log10(1 / p - 1)` strictly inside.  Modelled
over the exact reals since the source evaluates `np.log10`. -/
noncomputable def win_rate_to_elo (win_rate : ℝ) : XReal :=
  let c := max 0 (min 1 win_rate)
  if c = 0 then .ninf
  else if c = 1 then .pinf
  else .fin (-400 * Real.logb 10 (1 / c - 1))

/-- elo_to_win_rate: `1 / (1 + 10 ** (-elo / 400))`. -/
noncomputable def elo_to_win_rate (elo : ℝ) : ℝ :=
  1 / (1 + (10 : ℝ) ^ (-elo / 400))

/-- Concrete middle-lane champion (id 1) used as witness data; it has a
recorded matchup against itself, against champion 2 and against the
top-lane champion 3. -/
def champA : Champion :=
  { id := 1, role := .middle, n := 100, wr := 50, pr := 10, avgWinRate := 50,
    laneAssign := 100,
    enemies := [(.middle, 1, ⟨20, 10, 1/2⟩), (.middle, 2, ⟨30, 18, 3/5⟩),
                (.top, 3, ⟨10, 3, 3/10⟩)] }

/-- Concrete middle-lane champion (id 2) with a recorded matchup against
champion 1 only. -/
def champB : Champion :=
  { id := 2, role := .middle, n := 100, wr := 50, pr := 20, avgWinRate := 50,
    laneAssign := 100,
    enemies := [(.middle, 1, ⟨25, 10, 2/5⟩)] }

/-- Concrete top-lane champion (id 3) with a recorded matchup against
champion 1 only. -/
def champE : Champion :=
  { id := 3, role := .top, n := 100, wr := 50, pr := 40, avgWinRate := 50,
    laneAssign := 100,
    enemies := [(.middle, 1, ⟨40, 28, 7/10⟩)] }

/-- Concrete roster holding the three champions above. -/
def rosterR : Roster := ⟨[champA, champB, champE]⟩

/-- Concrete support-lane champion (id 4) with no recorded matchups. -/
def champF : Champion :=
  { id := 4, role := .support, n := 50, wr := 50, pr := 30, avgWinRate := 50,
    laneAssign := 100, enemies := [] }

/-- Concrete one-champion roster: champion 4 is the only valid champion
of its role. -/
def rosterF : Roster := ⟨[champF]⟩

/-- Concrete middle-lane champion (id 5): one win in 58 games against
champion 6, the stored win rate being the binary64 value of 1/58 that
Python float division produces. -/
def champP : Champion :=
  { id := 5, role := .middle, n := 200, wr := 50, pr := 10, avgWinRate := 50,
    laneAssign := 100,
    enemies := [(.middle, 6, ⟨58, 1, roundB64 (1/58)⟩)] }

/-- Concrete middle-lane champion (id 6): 23 wins in 44 games against
champion 5, the stored win rate being the binary64 value of 23/44. -/
def champQ : Champion :=
  { id := 6, role := .middle, n := 200, wr := 50, pr := 10, avgWinRate := 50,
    laneAssign := 100,
    enemies := [(.middle, 5, ⟨44, 23, roundB64 (23/44)⟩)] }

/-! Theorems. -/

/-- Boolean disequality fact used with `List.erase_cons_tail`. -/
theorem beq_false_of_ne {α : Type} [DecidableEq α] {a b : α} (h : a ≠ b) :
    ¬(a == b) = true := by
  simp only [beq_iff_eq]
  exact h

/-- Erasing an element other than the inserted one commutes with an
ordered insertion into a sorted list. -/
theorem erase_orderedInsert_of_ne {α : Type} [DecidableEq α] {r : α → α → Prop}
    [DecidableRel r] [IsTrans α r] {x a : α} (hxa : x ≠ a) :
    ∀ {l : List α}, l.Sorted r →
      (List.orderedInsert r a l).erase x = List.orderedInsert r a (l.erase x) := by
  intro l
  induction l with
  | nil =>
    intro _
    simp only [List.orderedInsert, List.erase_nil]
    rw [List.erase_cons_tail (beq_false_of_ne (Ne.symm hxa)), List.erase_nil]
  | cons y t ih =>
    intro hl
    rw [List.sorted_cons] at hl
    by_cases hay : r a y
    · rw [List.orderedInsert_of_le r t hay]
      by_cases hxy : x = y
      · subst hxy
        rw [List.erase_cons_tail (beq_false_of_ne (Ne.symm hxa)), List.erase_cons_head]
        cases t with
        | nil => rfl
        | cons z t2 =>
          rw [List.orderedInsert_of_le r t2 (Trans.trans hay (hl.1 z (by simp)))]
      · rw [List.erase_cons_tail (beq_false_of_ne (Ne.symm hxa)),
          List.erase_cons_tail (beq_false_of_ne (Ne.symm hxy)),
          List.orderedInsert_of_le r _ hay]
    · have hins : ∀ s : List α,
          List.orderedInsert r a (y :: s) = y :: List.orderedInsert r a s := by
        intro s
        simp only [List.orderedInsert, if_neg hay]
      by_cases hxy : x = y
      · subst hxy
        rw [hins t, List.erase_cons_head, List.erase_cons_head]
      · rw [hins t, List.erase_cons_tail (beq_false_of_ne (Ne.symm hxy)),
          List.erase_cons_tail (beq_false_of_ne (Ne.symm hxy)),
          ih hl.2, hins (t.erase x)]

/-- Erasing an element commutes with a stable insertion sort for a total
preorder: sorting first and then removing equals removing first and then
sorting. -/
theorem erase_insertionSort {α : Type} [DecidableEq α] (r : α → α → Prop)
    [DecidableRel r] [IsRefl α r] [IsTrans α r] [IsTotal α r] (x : α) :
    ∀ l : List α,
      (List.insertionSort r l).erase x = List.insertionSort r (l.erase x) := by
  intro l
  induction l with
  | nil => rfl
  | cons a t ih =>
    by_cases hxa : x = a
    · subst hxa
      simp only [List.insertionSort, List.erase_cons_head]
      exact List.erase_orderedInsert x _
    · rw [List.erase_cons_tail (beq_false_of_ne (Ne.symm hxa))]
      simp only [List.insertionSort]
      rw [erase_orderedInsert_of_ne hxa (List.sorted_insertionSort r t), ih]

/-- Removing self and the ignored champion before sorting gives the same
opponent list the code computes by sorting first. -/
theorem blind_opponents_eq (R : Roster) (c : Champion) (ignore : Option Champion) :
    blind_opponents R c ignore = blind_opponents_clm R c ignore := by
  unfold blind_opponents blind_opponents_clm
  cases ignore with
  | none => simp only; rw [erase_insertionSort]
  | some ig => simp only; rw [erase_insertionSort, erase_insertionSort]

/-- C1: `blind_expected_win_rate` equals the fold described in the spec:
remove self and the optional ignored champion from the role's valid
pool, sort ascending by the champion's raw matchup win rate, then
starting from mass 1 and accumulator 0 add, for each opponent,
`p * raw_matchup_win_rate` with `p = (1 - (1 - pick_rate)^N) * mass`
and subtract `p` from the mass; the final accumulator is returned and
leftover mass contributes nothing. -/
theorem blind_expected_win_rate_eq_claim_fold (R : Roster) (c : Champion)
    (N : ℕ) (ignore : Option Champion) :
    blind_expected_win_rate R c N ignore = blind_expected_win_rate_clm R c N ignore := by
  unfold blind_expected_win_rate blind_expected_win_rate_clm
  rw [blind_opponents_eq]

/-- C2: `win_rate_to_elo` clamps its argument to [0,1], returning `-inf`
for every `p ≤ 0`, `+inf` for every `p ≥ 1` and
`-400 * log10(1/p - 1)` strictly inside, and `elo_to_win_rate` inverts
it exactly on (0,1). -/
theorem win_rate_to_elo_spec (p : ℝ) :
    (p ≤ 0 → win_rate_to_elo p = .ninf) ∧
    (1 ≤ p → win_rate_to_elo p = .pinf) ∧
    (0 < p → p < 1 →
      win_rate_to_elo p = .fin (-400 * Real.logb 10 (1 / p - 1)) ∧
      elo_to_win_rate (-400 * Real.logb 10 (1 / p - 1)) = p) := by
  refine ⟨?_, ?_, ?_⟩
  · intro hp
    unfold win_rate_to_elo
    rw [min_eq_right (hp.trans zero_le_one), max_eq_left hp, if_pos rfl]
  · intro hp
    unfold win_rate_to_elo
    rw [min_eq_left hp, max_eq_right zero_le_one, if_neg one_ne_zero, if_pos rfl]
  · intro hp0 hp1
    unfold win_rate_to_elo
    rw [min_eq_right hp1.le, max_eq_right hp0.le, if_neg (ne_of_gt hp0),
      if_neg (ne_of_lt hp1)]
    refine ⟨rfl, ?_⟩
    unfold elo_to_win_rate
    have hgt : (0 : ℝ) < 1 / p - 1 := by
      have := one_lt_one_div hp0 hp1
      linarith
    have hexp : -(-400 * Real.logb 10 (1 / p - 1)) / 400 = Real.logb 10 (1 / p - 1) := by
      ring
    rw [hexp, Real.rpow_logb (by norm_num) (by norm_num) hgt]
    have h1p : 1 + (1 / p - 1) = 1 / p := by ring
    rw [h1p, one_div_one_div]

/-- Witness for C2 at the concrete inputs -1, 2 and 1/2. -/
theorem win_rate_to_elo_spec_witness :
    win_rate_to_elo (-1 : ℝ) = .ninf ∧
    win_rate_to_elo (2 : ℝ) = .pinf ∧
    win_rate_to_elo (1/2 : ℝ) = .fin (-400 * Real.logb 10 (1 / (1/2 : ℝ) - 1)) ∧
    elo_to_win_rate (-400 * Real.logb 10 (1 / (1/2 : ℝ) - 1)) = 1/2 :=
  ⟨(win_rate_to_elo_spec (-1)).1 (by norm_num),
   (win_rate_to_elo_spec 2).2.1 (by norm_num),
   (win_rate_to_elo_spec (1/2)).2.2 (by norm_num) (by norm_num)⟩

/-- Whenever both directional raw matchup records exist, the two
one-sidedly symmetrized values would be exact complements in idealized
exact arithmetic; the theorem after this one shows the program's
binary64 rounding breaks this identity, so the deviation observed there
is purely a floating point effect. -/
theorem normalized_pair_sum_eq_one {A B : Champion} {r1 r2 : MatchupRecord}
    (h1 : lookupEnemy A B.role B.id = some r1)
    (h2 : lookupEnemy B A.role A.id = some r2) :
    (normalized_matchup_win_rate A B).add (normalized_matchup_win_rate B A) = .fin 1 := by
  unfold normalized_matchup_win_rate raw_matchup_win_rate
  rw [h1, h2]
  simp only [PyFloat.sub, PyFloat.neg, PyFloat.add, PyFloat.div,
    if_neg (two_ne_zero (α := ℚ))]
  congr 1
  ring

/-- C4: the complementarity identity is NOT guaranteed by the program.
Champions 5 and 6 have both directional raw matchup win rates defined
(the binary64 values of 1/58 and 23/44, as Python float division of the
match counts stores them), yet under the IEEE binary64 arithmetic the
source runs on, the two one-sidedly symmetrized values sum to
1 - 2^-53, which differs from 1. -/
theorem normalized_matchup_sum_not_one_fp64 :
    ∃ A B : Champion, (lookupEnemy A B.role B.id).isSome ∧
      (lookupEnemy B A.role A.id).isSome ∧
      (normalized_matchup_win_rate_fp64 A B).addR
          (normalized_matchup_win_rate_fp64 B A) =
        .fin (9007199254740991 / 9007199254740992) ∧
      (normalized_matchup_win_rate_fp64 A B).addR
          (normalized_matchup_win_rate_fp64 B A) ≠ .fin 1 :=
  ⟨champP, champQ, by decide, by decide, by decide, by decide⟩

/-- C6: an opponent absent from the matchup mapping resolves to `nan`
for both the raw matchup win rate and the matchup pick rate (given the
champion profile has a nonzero sample size), never to a fabricated
number. -/
theorem missing_matchup_resolves_nan (c o : Champion)
    (habs : lookupEnemy c o.role o.id = none) (hn : c.n ≠ 0) :
    raw_matchup_win_rate c o = .nan ∧ matchup_pick_rates c o = .ok .nan := by
  have hcast : ((c.n : ℚ)) ≠ 0 := Nat.cast_ne_zero.mpr hn
  constructor
  · unfold raw_matchup_win_rate
    rw [habs]
  · unfold matchup_pick_rates
    rw [habs, if_neg hcast]
    rfl

/-- Witness for C6: champion 2 has no record against champion 3. -/
theorem missing_matchup_resolves_nan_witness :
    raw_matchup_win_rate champB champE = .nan ∧
    matchup_pick_rates champB champE = .ok .nan :=
  missing_matchup_resolves_nan champB champE (by decide) (by decide)

/-- C7: every champion returned by get_valid_champions with minimum pick
rate X has pick rate at least X, and raising the threshold shrinks the
returned set (antitone under inclusion). -/
theorem get_valid_champions_min_pick_rate (R : Roster) (role : Option Role)
    (minRA X Y : ℚ) (hXY : X ≤ Y) :
    (∀ ch ∈ get_valid_champions R role minRA X, X ≤ pick_rate ch) ∧
    (∀ ch ∈ get_valid_champions R role minRA Y,
      ch ∈ get_valid_champions R role minRA X) := by
  constructor
  · intro ch hch
    have hm := List.mem_filter.mp hch
    exact (of_decide_eq_true hm.2).2.1
  · intro ch hch
    have hm := List.mem_filter.mp hch
    have h2 := of_decide_eq_true hm.2
    exact List.mem_filter.mpr
      ⟨hm.1, decide_eq_true ⟨h2.1, le_trans hXY h2.2.1, h2.2.2⟩⟩

/-- Witness for C7 on the concrete roster with thresholds 0.15, 0.25. -/
theorem get_valid_champions_min_pick_rate_witness :
    (∀ ch ∈ get_valid_champions rosterR none 0 (15/100), (15:ℚ)/100 ≤ pick_rate ch) ∧
    (∀ ch ∈ get_valid_champions rosterR none 0 (25/100),
      ch ∈ get_valid_champions rosterR none 0 (15/100)) :=
  get_valid_champions_min_pick_rate rosterR none 0 (15/100) (25/100) (by norm_num)

/-- C8 (code bug): on the concrete roster, analyzing the one-champion
pool [champion 2] raises AttributeError, because the matchup loop reads
the attribute `normalized_matchup_N`, which the Champion class does not
define, instead of completing with absent second-best fields. -/
theorem analyze_champion_pool_raises_attribute_error :
    analyze_champion_pool rosterR [champB] 5 = .error .attributeError := by rfl

/-- Fold of best_blind_ban over a list whose members are all the subject
champion itself leaves the accumulator unchanged. -/
theorem banFold_skip_all (R : Roster) (c : Champion) (N : ℕ) :
    ∀ (l : List Champion) (acc : Option Champion × PyFloat),
      (∀ o ∈ l, o = c) → l.foldl (banStep R c N) acc = acc := by
  intro l
  induction l with
  | nil => intro acc _; rfl
  | cons o t ih =>
    intro acc h
    have ho : o = c := h o (by simp)
    simp only [List.foldl_cons, banStep, if_pos ho]
    exact ih acc (fun o2 ho2 => h o2 (by simp [ho2]))

/-- C10: when the valid champion set for the champion's role contains no
champion other than itself, best_blind_ban returns `(None, -inf)`. -/
theorem best_blind_ban_no_candidates (R : Roster) (c : Champion) (N : ℕ)
    (h : ∀ o ∈ get_valid_champions R (some c.role) dMinRoleAssign dMinPick, o = c) :
    best_blind_ban R c N = (none, .ninf) := by
  unfold best_blind_ban
  exact banFold_skip_all R c N _ _ h

/-- Witness for C10: champion 4 is alone in its role. -/
theorem best_blind_ban_no_candidates_witness :
    best_blind_ban rosterF champF 5 = (none, .ninf) :=
  best_blind_ban_no_candidates rosterF champF 5 (by decide)

/-- C5 (amended): a raw matchup tuple with `matches == 0` makes the
formatting step raise ZeroDivisionError (Python evaluates
`wins / matches` on integers), rather than storing and propagating a
NaN; every tuple with `matches > 0` stores `win_rate = wins / matches`
exactly. -/
theorem format_matchup_zero_matches_raises (l : List RawEnemyEntry) :
    ((∀ e ∈ l, e.matches ≠ 0) →
      formatEnemyList l = .ok (l.map (fun e =>
        (e.cid, ⟨e.matches, e.wins, (e.wins : ℚ) / (e.matches : ℚ)⟩)))) ∧
    ((∃ e ∈ l, e.matches = 0) →
      formatEnemyList l = .error .zeroDivisionError) := by
  unfold formatEnemyList
  induction l with
  | nil =>
    refine ⟨fun _ => rfl, ?_⟩
    rintro ⟨e, he, _⟩
    exact absurd he (List.not_mem_nil e)
  | cons e t ih =>
    constructor
    · intro h
      have hee : formatEnemyEntry e =
          .ok (e.cid, ⟨e.matches, e.wins, (e.wins : ℚ) / (e.matches : ℚ)⟩) := by
        unfold formatEnemyEntry
        rw [if_neg (h e (List.mem_cons_self e t))]
      rw [List.mapM_cons, hee, ih.1 (fun x hx => h x (List.mem_cons_of_mem e hx))]
      rfl
    · rintro ⟨e2, he2, hz⟩
      rw [List.mapM_cons]
      rcases List.mem_cons.mp he2 with heq | hmem
      · subst heq
        have hee : formatEnemyEntry e2 = .error .zeroDivisionError := by
          unfold formatEnemyEntry
          rw [if_pos hz]
        rw [hee]
        rfl
      · by_cases hez : e.matches = 0
        · have hee : formatEnemyEntry e = .error .zeroDivisionError := by
            unfold formatEnemyEntry
            rw [if_pos hez]
          rw [hee]
          rfl
        · have hee : formatEnemyEntry e =
              .ok (e.cid, ⟨e.matches, e.wins, (e.wins : ℚ) / (e.matches : ℚ)⟩) := by
            unfold formatEnemyEntry
            rw [if_neg hez]
          rw [hee, ih.2 ⟨e2, hmem, hz⟩]
          rfl

/-- Counterexample for C5 as stated: the raw tuple (9, 0, 0, 0) makes
the formatter raise (modelled as an error value) and produce no record
at all, instead of a record with a NaN win rate that propagates. -/
theorem format_matchup_nan_claim_false :
    formatEnemyList [⟨9, 0, 0, 0⟩] = .error .zeroDivisionError ∧
    (formatEnemyList [⟨9, 0, 0, 0⟩]).toOption = none :=
  ⟨rfl, rfl⟩

/-- Witness for C5 on a one-entry list with ten matches and a one-entry
list with zero matches. -/
theorem format_matchup_zero_matches_raises_witness :
    formatEnemyList [⟨7, 10, 6, 0⟩] = .ok ([(⟨7, 10, 6, 0⟩ : RawEnemyEntry)].map
      (fun e => (e.cid, ⟨e.matches, e.wins, (e.wins : ℚ) / (e.matches : ℚ)⟩))) ∧
    formatEnemyList [⟨9, 0, 0, 0⟩] = .error .zeroDivisionError :=
  ⟨(format_matchup_zero_matches_raises [⟨7, 10, 6, 0⟩]).1 (by decide),
   (format_matchup_zero_matches_raises [⟨9, 0, 0, 0⟩]).2
     ⟨⟨9, 0, 0, 0⟩, List.mem_singleton.mpr rfl, rfl⟩⟩

/-- Finite values pass through `toQ` unchanged. -/
theorem PyFloat.toQ_fin (q : ℚ) : PyFloat.toQ (.fin q) = q := rfl

/-- Generalized-accumulator form of a pandas sum over values that are
each finite or `nan`. -/
theorem pandasSum_go :
    ∀ l : List PyFloat, (∀ x ∈ l, x = .nan ∨ ∃ q, x = .fin q) →
      ∀ acc : ℚ,
        l.foldl pandasStep (.fin acc) = .fin (acc + (l.map PyFloat.toQ).sum) := by
  intro l
  induction l with
  | nil => intro _ acc; simp
  | cons x t ih =>
    intro h acc
    rcases h x (List.mem_cons_self x t) with hx | ⟨q, hx⟩ <;> subst hx
    · rw [List.foldl_cons,
        show pandasStep (.fin acc) .nan = .fin acc from rfl,
        ih (fun y hy => h y (List.mem_cons_of_mem _ hy)) acc]
      simp [PyFloat.toQ]
    · rw [List.foldl_cons,
        show pandasStep (.fin acc) (.fin q) = .fin (acc + q) from rfl,
        ih (fun y hy => h y (List.mem_cons_of_mem _ hy)) (acc + q)]
      simp only [List.map_cons, List.sum_cons, PyFloat.toQ_fin]
      congr 1
      ring

/-- pandas sum over finite-or-`nan` values is the rational sum of the
finite values, `nan` entries contributing zero. -/
theorem pandasSum_eq (l : List PyFloat) (h : ∀ x ∈ l, x = .nan ∨ ∃ q, x = .fin q) :
    pandasSum l = .fin ((l.map PyFloat.toQ).sum) := by
  unfold pandasSum
  rw [pandasSum_go l h 0]
  simp

/-- Every one-sidedly symmetrized matchup win rate is a finite rational
or `nan` (never an infinity). -/
theorem normalized_fin_or_nan (c o : Champion) :
    normalized_matchup_win_rate c o = .nan ∨
      ∃ q, normalized_matchup_win_rate c o = .fin q := by
  unfold normalized_matchup_win_rate raw_matchup_win_rate
  cases lookupEnemy c o.role o.id with
  | none =>
    cases lookupEnemy o c.role c.id with
    | none => left; rfl
    | some mr2 => left; rfl
  | some mr1 =>
    cases lookupEnemy o c.role c.id with
    | none => left; rfl
    | some mr2 =>
      right
      exact ⟨(mr1.win_rate + (1 + -mr2.win_rate)) / 2, by
        simp only [PyFloat.sub, PyFloat.neg, PyFloat.add, PyFloat.div,
          if_neg (two_ne_zero (α := ℚ))]⟩

/-- C3 (amended): matchup_normalized_win_rate is the pick-rate-weighted
average over the WHOLE roster (champions of every role, not only the
champion's own role): the numerator sums `normalized * pick_rate` over
all roster champions with `nan` products skipped, and the denominator
sums every roster champion's pick rate. -/
theorem matchup_normalized_win_rate_weights_whole_roster (R : Roster) (c : Champion)
    (hd : (R.champions.map pick_rate).sum ≠ 0) :
    matchup_normalized_win_rate R c =
      .fin ((R.champions.map (fun o =>
          PyFloat.toQ ((normalized_matchup_win_rate c o).mul (.fin (pick_rate o))))).sum /
        (R.champions.map pick_rate).sum) := by
  unfold matchup_normalized_win_rate
  have hnum : ∀ x ∈ R.champions.map
      (fun o => (normalized_matchup_win_rate c o).mul (.fin (pick_rate o))),
      x = .nan ∨ ∃ q, x = .fin q := by
    intro x hx
    obtain ⟨o, _, rfl⟩ := List.mem_map.mp hx
    rcases normalized_fin_or_nan c o with hn | ⟨q, hn⟩
    · left; rw [hn]; rfl
    · right; exact ⟨q * pick_rate o, by rw [hn]; rfl⟩
  have hden : ∀ x ∈ R.champions.map (fun o => PyFloat.fin (pick_rate o)),
      x = .nan ∨ ∃ q, x = .fin q := by
    intro x hx
    obtain ⟨o, _, rfl⟩ := List.mem_map.mp hx
    exact Or.inr ⟨pick_rate o, rfl⟩
  rw [pandasSum_eq _ hnum, pandasSum_eq _ hden]
  have hd2 : ((R.champions.map (fun o => PyFloat.fin (pick_rate o))).map
      PyFloat.toQ).sum = (R.champions.map pick_rate).sum := by
    rw [List.map_map]
    rfl
  have hn2 : ((R.champions.map
      (fun o => (normalized_matchup_win_rate c o).mul (.fin (pick_rate o)))).map
        PyFloat.toQ).sum =
      (R.champions.map (fun o =>
        PyFloat.toQ ((normalized_matchup_win_rate c o).mul
          (.fin (pick_rate o))))).sum := by
    rw [List.map_map]
    rfl
  rw [hd2, hn2]
  simp only [PyFloat.div, if_neg hd]

/-- Counterexample for C3 as stated: on the concrete mixed-role roster,
the value the code computes for champion 1 differs from the
role-restricted weighted average the claim describes. -/
theorem matchup_normalized_win_rate_not_role_restricted :
    matchup_normalized_win_rate rosterR champA = .fin (29/70) ∧
    matchup_normalized_win_rate_roleOnly rosterR champA = .fin (17/30) ∧
    matchup_normalized_win_rate rosterR champA ≠
      matchup_normalized_win_rate_roleOnly rosterR champA := by
  refine ⟨by decide, by decide, by decide⟩

/-- Witness for C3 (amended) on the concrete roster. -/
theorem matchup_normalized_win_rate_weights_whole_roster_witness :
    matchup_normalized_win_rate rosterR champA =
      .fin ((rosterR.champions.map (fun o =>
          PyFloat.toQ ((normalized_matchup_win_rate champA o).mul
            (.fin (pick_rate o))))).sum /
        (rosterR.champions.map pick_rate).sum) :=
  matchup_normalized_win_rate_weights_whole_roster rosterR champA (by decide)

/-- Bounds for the remaining probability mass: over opponents with pick
rates in [0,1] it never increases and never becomes negative. -/
theorem blindRemAfter_bounds (N : ℕ) :
    ∀ l : List Champion, (∀ o ∈ l, 0 ≤ pick_rate o ∧ pick_rate o ≤ 1) →
      ∀ r : ℚ, 0 ≤ r →
        0 ≤ blindRemAfter N l r ∧ blindRemAfter N l r ≤ r := by
  intro l
  induction l with
  | nil => intro _ r hr; exact ⟨hr, le_refl r⟩
  | cons o t ih =>
    intro h r hr
    obtain ⟨hp0, hp1⟩ := h o (List.mem_cons_self o t)
    have hf0 : 0 ≤ (1 - pick_rate o) ^ N := pow_nonneg (by linarith) N
    have hf1 : (1 - pick_rate o) ^ N ≤ 1 := pow_le_one₀ (by linarith) (by linarith)
    have hq0 : 0 ≤ (1 - (1 - pick_rate o) ^ N) * r := mul_nonneg (by linarith) hr
    have hq1 : (1 - (1 - pick_rate o) ^ N) * r ≤ r := by
      have h1 : 1 - (1 - pick_rate o) ^ N ≤ 1 := by linarith
      have h2 := mul_le_mul_of_nonneg_right h1 hr
      simpa using h2
    have hstep : blindRemAfter N (o :: t) r =
        blindRemAfter N t (r - (1 - (1 - pick_rate o) ^ N) * r) := rfl
    rw [hstep]
    have ht := ih (fun x hx => h x (List.mem_cons_of_mem _ hx))
      (r - (1 - (1 - pick_rate o) ^ N) * r) (by linarith)
    exact ⟨ht.1, le_trans ht.2 (by linarith)⟩

/-- Pick probabilities generated by the iteration are non-negative. -/
theorem blindProbs_nonneg (N : ℕ) :
    ∀ l : List Champion, (∀ o ∈ l, 0 ≤ pick_rate o ∧ pick_rate o ≤ 1) →
      ∀ r : ℚ, 0 ≤ r → ∀ p ∈ blindProbs N l r, 0 ≤ p := by
  intro l
  induction l with
  | nil => intro _ r _ p hp; exact absurd hp (List.not_mem_nil p)
  | cons o t ih =>
    intro h r hr p hp
    obtain ⟨hp0, hp1⟩ := h o (List.mem_cons_self o t)
    have hf0 : 0 ≤ (1 - pick_rate o) ^ N := pow_nonneg (by linarith) N
    have hf1 : (1 - pick_rate o) ^ N ≤ 1 := pow_le_one₀ (by linarith) (by linarith)
    have hq0 : 0 ≤ (1 - (1 - pick_rate o) ^ N) * r := mul_nonneg (by linarith) hr
    rw [show blindProbs N (o :: t) r = (1 - (1 - pick_rate o) ^ N) * r ::
        blindProbs N t (r - (1 - (1 - pick_rate o) ^ N) * r) from rfl] at hp
    rcases List.mem_cons.mp hp with heq | hmem
    · rw [heq]; exact hq0
    · have hq1 : (1 - (1 - pick_rate o) ^ N) * r ≤ r := by
        have h1 : 1 - (1 - pick_rate o) ^ N ≤ 1 := by linarith
        have h2 := mul_le_mul_of_nonneg_right h1 hr
        simpa using h2
      exact ih (fun x hx => h x (List.mem_cons_of_mem _ hx)) _ (by linarith) p hmem

/-- The generated pick probabilities exactly account for the consumed
probability mass. -/
theorem blindProbs_sum (N : ℕ) :
    ∀ (l : List Champion) (r : ℚ),
      (blindProbs N l r).sum = r - blindRemAfter N l r := by
  intro l
  induction l with
  | nil => intro r; simp [blindProbs, blindRemAfter]
  | cons o t ih =>
    intro r
    rw [show blindProbs N (o :: t) r = (1 - (1 - pick_rate o) ^ N) * r ::
        blindProbs N t (r - (1 - (1 - pick_rate o) ^ N) * r) from rfl,
      List.sum_cons, ih,
      show blindRemAfter N (o :: t) r =
        blindRemAfter N t (r - (1 - (1 - pick_rate o) ^ N) * r) from rfl]
    ring

/-- The first component of the code's fold state is the remaining
probability mass. -/
theorem blindFold_fst (c : Champion) (N : ℕ) :
    ∀ (l : List Champion) (r : ℚ) (v : PyFloat),
      (l.foldl (blindStep c N) (r, v)).1 = blindRemAfter N l r := by
  intro l
  induction l with
  | nil => intro r v; rfl
  | cons o t ih =>
    intro r v
    rw [List.foldl_cons]
    exact ih _ _

/-- Invariant of the code's fold: with pick rates and matchup win rates
in the unit interval, the accumulator stays a finite rational bounded
by one minus the remaining mass. -/
theorem blindFold_result (c : Champion) (N : ℕ) :
    ∀ l : List Champion, (∀ o ∈ l, 0 ≤ pick_rate o ∧ pick_rate o ≤ 1) →
      (∀ o ∈ l, (raw_matchup_win_rate c o).memUnit) →
      ∀ r v : ℚ, 0 ≤ r → 0 ≤ v → v + r ≤ 1 →
        ∃ w : ℚ, (l.foldl (blindStep c N) (r, .fin v)).2 = .fin w ∧ 0 ≤ w ∧
          w + (l.foldl (blindStep c N) (r, .fin v)).1 ≤ 1 := by
  intro l
  induction l with
  | nil =>
    intro _ _ r v hr hv hvr
    exact ⟨v, rfl, hv, hvr⟩
  | cons o t ih =>
    intro hl hw r v hr hv hvr
    obtain ⟨hp0, hp1⟩ := hl o (List.mem_cons_self o t)
    have hfin : ∃ q, raw_matchup_win_rate c o = .fin q ∧ 0 ≤ q ∧ q ≤ 1 := by
      have hfm := hw o (List.mem_cons_self o t)
      cases hmm : raw_matchup_win_rate c o with
      | fin q =>
        rw [hmm] at hfm
        exact ⟨q, rfl, hfm.1, hfm.2⟩
      | ninf => rw [hmm] at hfm; exact hfm.elim
      | pinf => rw [hmm] at hfm; exact hfm.elim
      | nan => rw [hmm] at hfm; exact hfm.elim
    obtain ⟨q, hq, hq0, hq1⟩ := hfin
    have hf0 : 0 ≤ (1 - pick_rate o) ^ N := pow_nonneg (by linarith) N
    have hf1 : (1 - pick_rate o) ^ N ≤ 1 := pow_le_one₀ (by linarith) (by linarith)
    have hq2 : 0 ≤ (1 - (1 - pick_rate o) ^ N) * r := mul_nonneg (by linarith) hr
    have hq3 : (1 - (1 - pick_rate o) ^ N) * r ≤ r := by
      have h1 : 1 - (1 - pick_rate o) ^ N ≤ 1 := by linarith
      have h2 := mul_le_mul_of_nonneg_right h1 hr
      simpa using h2
    have hmul : (1 - (1 - pick_rate o) ^ N) * r * q ≤ (1 - (1 - pick_rate o) ^ N) * r :=
      mul_le_of_le_one_right hq2 hq1
    have hmul0 : 0 ≤ (1 - (1 - pick_rate o) ^ N) * r * q := mul_nonneg hq2 hq0
    have hstep : (o :: t).foldl (blindStep c N) (r, .fin v) =
        t.foldl (blindStep c N) (r - (1 - (1 - pick_rate o) ^ N) * r,
          .fin (v + (1 - (1 - pick_rate o) ^ N) * r * q)) := by
      rw [List.foldl_cons]
      congr 1
      unfold blindStep
      rw [hq]
      simp [PyFloat.mul, PyFloat.add]
    rw [hstep]
    exact ih (fun x hx => hl x (List.mem_cons_of_mem _ hx))
      (fun x hx => hw x (List.mem_cons_of_mem _ hx))
      _ _ (by linarith) (by linarith) (by linarith)

/-- C9: with every eligible opponent's pick rate in [0,1] the remaining
probability mass stays in [0,1] and never increases across any split of
the iteration, the per-opponent pick probabilities are non-negative and
sum to at most 1, and when additionally every raw matchup win rate lies
in [0,1] the returned expected win rate is a finite value in [0,1]. -/
theorem blind_expected_win_rate_mass_invariants (R : Roster) (c : Champion)
    (N : ℕ) (ignore : Option Champion)
    (hl : ∀ o ∈ blind_opponents R c ignore, 0 ≤ pick_rate o ∧ pick_rate o ≤ 1)
    (hw : ∀ o ∈ blind_opponents R c ignore, (raw_matchup_win_rate c o).memUnit) :
    (∀ pre post, blind_opponents R c ignore = pre ++ post →
        0 ≤ blindRemAfter N post (blindRemAfter N pre 1) ∧
        blindRemAfter N post (blindRemAfter N pre 1) ≤ blindRemAfter N pre 1 ∧
        blindRemAfter N pre 1 ≤ 1) ∧
    (∀ p ∈ blindProbs N (blind_opponents R c ignore) 1, 0 ≤ p) ∧
    (blindProbs N (blind_opponents R c ignore) 1).sum ≤ 1 ∧
    (∃ w : ℚ, blind_expected_win_rate R c N ignore = .fin w ∧ 0 ≤ w ∧ w ≤ 1) := by
  refine ⟨?_, ?_, ?_, ?_⟩
  · intro pre post heq
    have hpre : ∀ o ∈ pre, 0 ≤ pick_rate o ∧ pick_rate o ≤ 1 := fun o ho =>
      hl o (by rw [heq]; exact List.mem_append_left _ ho)
    have hpost : ∀ o ∈ post, 0 ≤ pick_rate o ∧ pick_rate o ≤ 1 := fun o ho =>
      hl o (by rw [heq]; exact List.mem_append_right _ ho)
    have h1 := blindRemAfter_bounds N pre hpre 1 (by norm_num)
    have h2 := blindRemAfter_bounds N post hpost (blindRemAfter N pre 1) h1.1
    exact ⟨h2.1, h2.2, le_trans h1.2 (by norm_num)⟩
  · exact blindProbs_nonneg N _ hl 1 (by norm_num)
  · rw [blindProbs_sum]
    have h1 := blindRemAfter_bounds N _ hl 1 (by norm_num)
    linarith [h1.1]
  · obtain ⟨w, hw2, hw0, hwr⟩ :=
      blindFold_result c N _ hl hw 1 0 (by norm_num) (le_refl 0) (by norm_num)
    refine ⟨w, hw2, hw0, ?_⟩
    rw [blindFold_fst c N _ 1 _] at hwr
    have h4 := blindRemAfter_bounds N _ hl 1 (by norm_num)
    linarith [h4.1]

/-- Witness for C9 on the concrete roster: blind-picking champion 1
against its one eligible opponent yields a finite value in [0,1]. -/
theorem blind_expected_win_rate_mass_invariants_witness :
    ∃ w : ℚ, blind_expected_win_rate rosterR champA 5 none = .fin w ∧
      0 ≤ w ∧ w ≤ 1 :=
  (blind_expected_win_rate_mass_invariants rosterR champA 5 none
    (by decide) (by decide)).2.2.2

end Lolalytics
